import Mathlib

/-!
# Verification development for package `y` (`db.go`)

`db.go` is a thin layer over `database/sql` and the `squirrel` statement builder.
The embedding is by explicit state passing:

* `σ` is the state of everything outside the package (database server, driver,
  caller-owned memory); every call into the outside world is a function on `σ`.
* A Go `error` is an `Option E`: `none` is `nil`, `some e` a non-nil error `e`.
* The calls a function makes are observed through a call log: the outside
  operations are wrapped so that each one appends a record of the call it received
  (with the arguments it received) before running. The wrapped operations are
  ordinary arguments of the unchanged functions of the package.
-/

namespace Y

/-! ## `Tx`: the transaction runner -/

section TxModel

variable {σ H E V : Type}

/-- The part of `database/sql` that `Tx` uses: `(*sql.DB).Begin`, which yields
either an open transaction handle or a non-nil error, and `(*sql.Tx).Commit` and
`(*sql.Tx).Rollback`, which yield an error value. All three act on the outside
state. -/
structure SqlDB (σ H E : Type) where
  Begin : σ → Except E H × σ
  Commit : H → σ → Option E × σ
  Rollback : H → σ → Option E × σ

/-- `type TxPipe func(db DB, v interface{}) error`: a step receives the handle
and the target and returns an error value, acting on the outside state. -/
abbrev TxPipe (σ H V E : Type) := H → V → σ → Option E × σ

/-- The body of `Tx` from the `for _, pipe := range pipes` loop on, with the
named result `err` as an explicit variable:
```go
for _, pipe := range pipes {
    err = pipe(tx, v)
    if err != nil {
        tx.Rollback()
        return
    }
}
tx.Commit()
return
```
The values returned by `tx.Rollback()` and `tx.Commit()` are dropped. -/
def Tx.forPipes (db : SqlDB σ H E) (tx : H) (v : V) :
    List (TxPipe σ H V E) → Option E → σ → Option E × σ
  | [], err, s => (err, (db.Commit tx s).2)
  | pipe :: rest, _, s =>
    match pipe tx v s with
    | (some e, s1) => (some e, (db.Rollback tx s1).2)
    | (none, s1) => Tx.forPipes db tx v rest none s1

/-- The function `Tx`:
```go
func Tx(db *sql.DB, v interface{}, pipes ...TxPipe) (err error) {
    tx, err := db.Begin()
    if err != nil {
        return
    }
    ...
```
-/
def Tx (db : SqlDB σ H E) (v : V) (pipes : List (TxPipe σ H V E)) (s : σ) :
    Option E × σ :=
  match db.Begin s with
  | (Except.error e, s0) => (some e, s0)
  | (Except.ok tx, s0) => Tx.forPipes db tx v pipes none s0

/-! ### The call log -/

/-- One record of the call log of `Tx`: a call of `Begin`, of the step at
position `i` (counted from 0) with the handle and target it received, of `Commit`
or of `Rollback` on a handle. -/
inductive Call (H V : Type) where
  | begin : Call H V
  | pipe (i : Nat) (tx : H) (v : V) : Call H V
  | commit (tx : H) : Call H V
  | rollback (tx : H) : Call H V
  deriving DecidableEq

/-- The connection `db` with every operation recording its call. -/
def SqlDB.traced (db : SqlDB σ H E) : SqlDB (σ × List (Call H V)) H E where
  Begin := fun st => ((db.Begin st.1).1, (db.Begin st.1).2, st.2 ++ [Call.begin])
  Commit := fun tx st =>
    ((db.Commit tx st.1).1, (db.Commit tx st.1).2, st.2 ++ [Call.commit tx])
  Rollback := fun tx st =>
    ((db.Rollback tx st.1).1, (db.Rollback tx st.1).2, st.2 ++ [Call.rollback tx])

/-- The step `p`, recording that it was called as the step at position `i` and
with which handle and target. -/
def tracedPipe (i : Nat) (p : TxPipe σ H V E) : TxPipe (σ × List (Call H V)) H V E :=
  fun tx v st => ((p tx v st.1).1, (p tx v st.1).2, st.2 ++ [Call.pipe i tx v])

/-- The steps of a list, each recording its position, the first one being at
position `i`. -/
def tracedPipes : Nat → List (TxPipe σ H V E) → List (TxPipe (σ × List (Call H V)) H V E)
  | _, [] => []
  | i, p :: ps => tracedPipe i p :: tracedPipes (i + 1) ps

/-- The run of `Tx` from state `s` with its calls recorded, starting from the empty
call log: the error `Tx` returns, the outside state afterwards, and the calls
made, in order. -/
def Tx.run (db : SqlDB σ H E) (v : V) (pipes : List (TxPipe σ H V E)) (s : σ) :
    Option E × σ × List (Call H V) :=
  Tx db.traced v (tracedPipes 0 pipes) (s, [])

/-- The number of calls of the step at position `i` in a call log. -/
def invocations (i : Nat) (log : List (Call H V)) : Nat :=
  log.countP fun c => match c with
    | Call.pipe j _ _ => j == i
    | _ => false

/-- The number of calls of `Commit` in a call log. -/
def commits (log : List (Call H V)) : Nat :=
  log.countP fun c => match c with
    | Call.commit _ => true
    | _ => false

/-- The number of calls of `Rollback` in a call log. -/
def rollbacks (log : List (Call H V)) : Nat :=
  log.countP fun c => match c with
    | Call.rollback _ => true
    | _ => false

/-- The step calls of a call log, in the order they were made: position, handle
received, target received. -/
def pipeCalls (log : List (Call H V)) : List (Nat × H × V) :=
  log.filterMap fun c => match c with
    | Call.pipe i tx v => some (i, tx, v)
    | _ => none

/-- The records of `n` step calls in order, at positions `i`, `i + 1`, ..., each
with handle `tx` and target `v`. -/
def pipeLog (tx : H) (v : V) (i n : Nat) : List (Call H V) :=
  (List.range n).map fun j => Call.pipe (i + j) tx v

/-- Running the steps one after the other on the handle `tx` from state `s`, as
long as they return `nil`: the state after the last one when every step returned
`nil`, and `none` as soon as one returns a non-nil error. -/
def allNil (tx : H) (v : V) : List (TxPipe σ H V E) → σ → Option σ
  | [], s => some s
  | p :: ps, s =>
    match p tx v s with
    | (none, s1) => allNil tx v ps s1
    | (some _, _) => none

end TxModel

/-! ### A small in-memory database for concrete runs -/

/-- A database with one table of numbers: the rows every new transaction sees
(`committed`) and the rows the open transaction sees (`working`). -/
structure Store where
  committed : List Nat
  working : List Nat
  deriving DecidableEq

/-- An in-memory connection. `Begin` fails with `beginErr` when that is given and
otherwise opens transaction 1 on a copy of the committed rows; `Commit` fails
with `commitErr` when that is given, publishing nothing, and otherwise publishes
the working rows; `Rollback` discards the working rows and returns `rollbackErr`. -/
def memDB (beginErr commitErr rollbackErr : Option String) : SqlDB Store Nat String where
  Begin := fun s =>
    match beginErr with
    | some e => (Except.error e, s)
    | none => (Except.ok 1, { s with working := s.committed })
  Commit := fun _ s =>
    match commitErr with
    | some e => (some e, s)
    | none => (none, { s with committed := s.working })
  Rollback := fun _ s => (rollbackErr, { s with working := s.committed })

/-- A step that inserts the row `n` through the transaction and succeeds. -/
def insertRow (n : Nat) : TxPipe Store Nat Nat String :=
  fun _ _ s => (none, { s with working := s.working ++ [n] })

/-- A step that inserts the target as a row through the transaction and then
fails with `msg`. -/
def failWith (msg : String) : TxPipe Store Nat Nat String :=
  fun _ v s => (some msg, { s with working := s.working ++ [v] })

/-! ## `sqlize`, `exec`, `query`, `queryRow`: the execution primitives -/

section Primitives

variable {σ A R Rows Row E : Type}

/-- The interface `sq.Sqlizer` of squirrel: `ToSql() (string, []interface{}, error)`
yields the statement text, its arguments and a build error. -/
structure Sqlizer (A E : Type) where
  ToSql : String × List A × Option E

/-- The interface `DB` (`Execer` and `Queryer`):
`Exec(string, ...interface{}) (sql.Result, error)`,
`Query(string, ...interface{}) (*sql.Rows, error)` and
`QueryRow(string, ...interface{}) *sql.Row`, acting on the outside state. -/
structure DB (σ A R Rows Row E : Type) where
  Exec : String → List A → σ → (R × Option E) × σ
  Query : String → List A → σ → (Rows × Option E) × σ
  QueryRow : String → List A → σ → Row × σ

/-- What `sqlize` reads besides its argument: the package variable `Debug`, which
is declared outside `db.go`, and `log.Printf`, which receives the format, the
statement text and the arguments. -/
structure Env (σ A : Type) where
  Debug : Bool
  Printf : String → String → List A → σ → σ

/-- The function `sqlize`:
```go
func sqlize(q sq.Sqlizer) (sql string, args []interface{}) {
    sql, args, _ = q.ToSql()
    if Debug {
        log.Printf("y/db: SQL: %s, args: %#v", sql, args)
    }
    return
}
```
The build error of `ToSql` is assigned to the blank identifier. -/
def sqlize (env : Env σ A) (q : Sqlizer A E) (s : σ) : (String × List A) × σ :=
  match q.ToSql with
  | (sql, args, _) =>
    if env.Debug then ((sql, args), env.Printf "y/db: SQL: %s, args: %#v" sql args s)
    else ((sql, args), s)

/-- The function `exec`:
```go
func exec(q sq.Sqlizer, db DB) (sql.Result, error) {
    sql, args := sqlize(q)
    return db.Exec(sql, args...)
}
```
-/
def exec (env : Env σ A) (q : Sqlizer A E) (db : DB σ A R Rows Row E) (s : σ) :
    (R × Option E) × σ :=
  match sqlize env q s with
  | ((sql, args), s1) => db.Exec sql args s1

/-- The function `query`:
```go
func query(q sq.Sqlizer, db DB) (*sql.Rows, error) {
    sql, args := sqlize(q)
    return db.Query(sql, args...)
}
```
-/
def query (env : Env σ A) (q : Sqlizer A E) (db : DB σ A R Rows Row E) (s : σ) :
    (Rows × Option E) × σ :=
  match sqlize env q s with
  | ((sql, args), s1) => db.Query sql args s1

/-- The function `queryRow`:
```go
func queryRow(q sq.Sqlizer, db DB) *sql.Row {
    sql, args := sqlize(q)
    return db.QueryRow(sql, args...)
}
```
-/
def queryRow (env : Env σ A) (q : Sqlizer A E) (db : DB σ A R Rows Row E) (s : σ) :
    Row × σ :=
  match sqlize env q s with
  | ((sql, args), s1) => db.QueryRow sql args s1

/-- One record of the call log of a handle: the method called, with the text and
the arguments it received. -/
inductive DBCall (A : Type) where
  | exec (text : String) (args : List A) : DBCall A
  | query (text : String) (args : List A) : DBCall A
  | queryRow (text : String) (args : List A) : DBCall A
  deriving DecidableEq

/-- The handle `db` with every method recording its call. -/
def DB.traced (db : DB σ A R Rows Row E) : DB (σ × List (DBCall A)) A R Rows Row E where
  Exec := fun text args st =>
    ((db.Exec text args st.1).1, (db.Exec text args st.1).2, st.2 ++ [DBCall.exec text args])
  Query := fun text args st =>
    ((db.Query text args st.1).1, (db.Query text args st.1).2,
      st.2 ++ [DBCall.query text args])
  QueryRow := fun text args st =>
    ((db.QueryRow text args st.1).1, (db.QueryRow text args st.1).2,
      st.2 ++ [DBCall.queryRow text args])

/-- The environment of `sqlize` next to a call log, which `log.Printf` does not
touch. -/
def Env.traced (env : Env σ A) : Env (σ × List (DBCall A)) A where
  Debug := env.Debug
  Printf := fun format text args st => (env.Printf format text args st.1, st.2)

/-- The outside state after `sqlize` has run on a statement with text `text` and
arguments `args`: `log.Printf` has been called when `Debug` is set, and nothing
has happened otherwise. -/
def Env.logged (env : Env σ A) (text : String) (args : List A) (s : σ) : σ :=
  if env.Debug then env.Printf "y/db: SQL: %s, args: %#v" text args s else s

/-- A handle for concrete runs: it accepts every statement, returns the length of
the text as result and a nil error, and counts the statements it received. -/
def countingDB : DB Nat Nat Nat Nat Nat String where
  Exec := fun text _ n => ((text.length, none), n + 1)
  Query := fun text _ n => ((text.length, none), n + 1)
  QueryRow := fun text _ n => (text.length, n + 1)

/-- A statement whose build fails: `ToSql` returns the empty text, no arguments
and a non-nil error. -/
def brokenStatement : Sqlizer Nat String where
  ToSql := ("", [], some "select statements must have at least one result column")

/-- An environment for concrete runs, with `Debug` off. -/
def quietEnv : Env Nat Nat where
  Debug := false
  Printf := fun _ _ _ n => n

end Primitives

/-! ## `Qualifier`, `ByEq`, `ByID`: the qualifiers -/

section Qualifiers

variable {Val : Type}

/-- The type `sq.Eq` of squirrel, `map[string]interface{}`: the entries of the map,
a field name and the value given for it. How squirrel writes an entry into the
statement text (`=`, `IN` for a list value, `IS NULL` for nil) is not modelled. -/
abbrev sq.Eq (Val : Type) := List (String × Val)

/-- Modelled from the spec: a where-part of a squirrel select builder, which is not
part of this repository: an `sq.Eq` map that was given to `Where`, or any other
predicate, kept as its text and arguments. -/
inductive sq.Pred (Val : Type) where
  | eq (e : sq.Eq Val) : sq.Pred Val
  | expr (text : String) (args : List Val) : sq.Pred Val
  deriving DecidableEq

/-- Modelled from the spec: the select builder `sq.SelectBuilder` of squirrel, which
is not part of this repository. It is an immutable value: the statement without its
WHERE clause (`core`) and the where-parts in the order they were added, which is
the order in which squirrel writes them into the WHERE clause, joined by AND. The
text squirrel writes, and how SQL reads that text, are not modelled. -/
structure sq.SelectBuilder (Val : Type) where
  core : String
  WhereParts : List (sq.Pred Val)
  deriving DecidableEq

/-- Modelled from the spec: the method `Where` of `sq.SelectBuilder` applied to an
`sq.Eq`. It returns a derived builder with the condition added after the existing
ones and leaves the builder it is given as it was. -/
def sq.SelectBuilder.Where (b : sq.SelectBuilder Val) (eq : sq.Eq Val) :
    sq.SelectBuilder Val :=
  { b with WhereParts := b.WhereParts ++ [sq.Pred.eq eq] }

/-- `type Qualifier func(sq.SelectBuilder) sq.SelectBuilder`. -/
abbrev Qualifier (Val : Type) := sq.SelectBuilder Val → sq.SelectBuilder Val

/-- The function value `ByEq`:
```go
var ByEq = func(eq sq.Eq) Qualifier {
    return func(b sq.SelectBuilder) sq.SelectBuilder {
        return b.Where(eq)
    }
}
```
-/
def ByEq (eq : sq.Eq Val) : Qualifier Val :=
  fun b => b.Where eq

/-- The function value `ByID`:
```go
var ByID = func(id interface{}) Qualifier {
    return ByEq(sq.Eq{"id": id})
}
```
-/
def ByID (id : Val) : Qualifier Val :=
  ByEq [("id", id)]

/-- Applying the qualifiers `[q1, .., qn]` to a base statement one after the
other: `qn(..q1(base))`. -/
def qualify (qs : List (Qualifier Val)) (base : sq.SelectBuilder Val) : sq.SelectBuilder Val :=
  qs.foldl (fun b q => q b) base

end Qualifiers

/-! ## Theorems

### Counting in call logs -/

section TxLemmas
variable {σ H E V : Type}

theorem pipeLog_zero (tx : H) (v : V) (i : Nat) : pipeLog tx v i 0 = [] := rfl

theorem pipeLog_succ (tx : H) (v : V) (i n : Nat) :
    pipeLog tx v i (n + 1) = Call.pipe i tx v :: pipeLog tx v (i + 1) n := by
  unfold pipeLog
  rw [List.range_succ_eq_map]
  simp only [List.map_cons, List.map_map, Nat.add_zero]
  congr 1
  apply List.map_congr_left
  intro j _
  simp only [Function.comp_apply]
  congr 1
  omega

theorem invocations_append (i : Nat) (l1 l2 : List (Call H V)) :
    invocations i (l1 ++ l2) = invocations i l1 + invocations i l2 := by
  simp [invocations, List.countP_append]

theorem commits_append (l1 l2 : List (Call H V)) :
    commits (l1 ++ l2) = commits l1 + commits l2 := by
  simp [commits, List.countP_append]

theorem rollbacks_append (l1 l2 : List (Call H V)) :
    rollbacks (l1 ++ l2) = rollbacks l1 + rollbacks l2 := by
  simp [rollbacks, List.countP_append]

theorem pipeCalls_append (l1 l2 : List (Call H V)) :
    pipeCalls (l1 ++ l2) = pipeCalls l1 ++ pipeCalls l2 := by
  simp [pipeCalls, List.filterMap_append]

theorem invocations_pipeLog (tx : H) (v : V) (j : Nat) :
    ∀ (n i : Nat), invocations j (pipeLog tx v i n) = if i ≤ j ∧ j < i + n then 1 else 0
  | 0, i => by
    have h : ¬ (i ≤ j ∧ j < i + 0) := by omega
    rw [if_neg h]
    rfl
  | n + 1, i => by
    rw [pipeLog_succ]
    have ih := invocations_pipeLog tx v j n (i + 1)
    have hc : invocations j (Call.pipe i tx v :: pipeLog tx v (i + 1) n)
        = invocations j (pipeLog tx v (i + 1) n) + if i = j then 1 else 0 := by
      simp [invocations, List.countP_cons]
    rw [hc, ih]
    split_ifs <;> omega

theorem commits_pipeLog (tx : H) (v : V) :
    ∀ (n i : Nat), commits (pipeLog tx v i n) = 0
  | 0, i => by simp [pipeLog_zero, commits]
  | n + 1, i => by
    rw [pipeLog_succ]
    have ih := commits_pipeLog tx v n (i + 1)
    simpa [commits, List.countP_cons] using ih

theorem rollbacks_pipeLog (tx : H) (v : V) :
    ∀ (n i : Nat), rollbacks (pipeLog tx v i n) = 0
  | 0, i => by simp [pipeLog_zero, rollbacks]
  | n + 1, i => by
    rw [pipeLog_succ]
    have ih := rollbacks_pipeLog tx v n (i + 1)
    simpa [rollbacks, List.countP_cons] using ih

theorem pipeCalls_pipeLog (tx : H) (v : V) (i n : Nat) :
    pipeCalls (pipeLog tx v i n) = (List.range n).map fun j => (i + j, tx, v) := by
  simp [pipeCalls, pipeLog, List.filterMap_map, Function.comp_def]
  induction (List.range n) with
  | nil => rfl
  | cons a l ih => simp [List.filterMap_cons, ih]

end TxLemmas

/-! ### Runs of `Tx` -/

section TxRuns
variable {σ H E V : Type}

/-- The traced loop when every step returns `nil`: every step is called once, in
order, and then `Commit`. -/
theorem forPipes_traced_ok (db : SqlDB σ H E) (tx : H) (v : V) :
    ∀ (ps : List (TxPipe σ H V E)) (i : Nat) (s0 s1 : σ) (log : List (Call H V)),
      allNil tx v ps s0 = some s1 →
      Tx.forPipes db.traced tx v (tracedPipes i ps) none (s0, log)
        = (none, (db.Commit tx s1).2, log ++ pipeLog tx v i ps.length ++ [Call.commit tx])
  | [], i, s0, s1, log, h => by
    simp only [allNil, Option.some.injEq] at h
    subst h
    simp [tracedPipes, Tx.forPipes, SqlDB.traced, pipeLog_zero]
  | p :: ps, i, s0, s1, log, h => by
    rcases hp : p tx v s0 with ⟨r, s⟩
    cases r with
    | some e => simp [allNil, hp] at h
    | none =>
      simp only [allNil, hp] at h
      have ih := forPipes_traced_ok db tx v ps (i + 1) s s1 (log ++ [Call.pipe i tx v]) h
      simp only [tracedPipes, Tx.forPipes, tracedPipe, hp, List.length_cons, pipeLog_succ]
      rw [ih]
      simp

/-- The traced loop when the step after `pre` is the first to return a non-nil
error: the steps up to it are called once each, in order, and then `Rollback`. -/
theorem forPipes_traced_fail (db : SqlDB σ H E) (tx : H) (v : V)
    (sk : TxPipe σ H V E) (post : List (TxPipe σ H V E)) (e : E) (s1 s2 : σ)
    (hk : sk tx v s1 = (some e, s2)) :
    ∀ (pre : List (TxPipe σ H V E)) (i : Nat) (s0 : σ) (err : Option E)
      (log : List (Call H V)),
      allNil tx v pre s0 = some s1 →
      Tx.forPipes db.traced tx v (tracedPipes i (pre ++ sk :: post)) err (s0, log)
        = (some e, (db.Rollback tx s2).2,
            log ++ pipeLog tx v i (pre.length + 1) ++ [Call.rollback tx])
  | [], i, s0, err, log, h => by
    simp only [allNil, Option.some.injEq] at h
    subst h
    simp [tracedPipes, Tx.forPipes, tracedPipe, SqlDB.traced, hk, pipeLog_succ, pipeLog_zero]
  | p :: ps, i, s0, err, log, h => by
    rcases hp : p tx v s0 with ⟨r, s⟩
    cases r with
    | some e => simp [allNil, hp] at h
    | none =>
      simp only [allNil, hp] at h
      have ih := forPipes_traced_fail db tx v sk post e s1 s2 hk ps (i + 1) s none
        (log ++ [Call.pipe i tx v]) h
      rw [List.cons_append]
      simp only [tracedPipes, Tx.forPipes, tracedPipe, hp, List.length_cons]
      rw [ih, pipeLog_succ tx v i (ps.length + 1)]
      simp

/-- Every run of the steps either has every step return `nil`, or has a first
step that returns a non-nil error. -/
theorem allNil_cases (tx : H) (v : V) :
    ∀ (ps : List (TxPipe σ H V E)) (s0 : σ),
      (∃ s1, allNil tx v ps s0 = some s1) ∨
      (∃ pre sk post s1 e s2, ps = pre ++ sk :: post ∧ allNil tx v pre s0 = some s1 ∧
        sk tx v s1 = (some e, s2))
  | [], s0 => Or.inl ⟨s0, rfl⟩
  | p :: ps, s0 => by
    rcases hp : p tx v s0 with ⟨r, s⟩
    cases r with
    | some e => exact Or.inr ⟨[], p, ps, s0, e, s, rfl, rfl, hp⟩
    | none =>
      rcases allNil_cases tx v ps s with ⟨s1, h1⟩ | ⟨pre, sk, post, s1, e, s2, h1, h2, h3⟩
      · exact Or.inl ⟨s1, by simp [allNil, hp, h1]⟩
      · exact Or.inr ⟨p :: pre, sk, post, s1, e, s2, by simp [h1], by simp [allNil, hp, h2], h3⟩

/-- A run with a first failing step is not a run in which every step returns
`nil`. -/
theorem allNil_append_fail (tx : H) (v : V) (sk : TxPipe σ H V E)
    (post : List (TxPipe σ H V E)) (e : E) (s1 s2 : σ) (hk : sk tx v s1 = (some e, s2)) :
    ∀ (pre : List (TxPipe σ H V E)) (s0 : σ), allNil tx v pre s0 = some s1 →
      allNil tx v (pre ++ sk :: post) s0 = none
  | [], s0, h => by
    simp only [allNil, Option.some.injEq] at h
    subst h
    simp [allNil, hk]
  | p :: ps, s0, h => by
    rcases hp : p tx v s0 with ⟨r, s⟩
    cases r with
    | some e => simp [allNil, hp] at h
    | none =>
      simp only [allNil, hp] at h
      rw [List.cons_append]
      simp only [allNil, hp]
      exact allNil_append_fail tx v sk post e s1 s2 hk ps s h

/-- The traced run of `Tx` when `Begin` succeeds. -/
theorem Tx_traced_begin_ok (db : SqlDB σ H E) (v : V) (pipes : List (TxPipe σ H V E))
    (s s0 : σ) (tx : H) (hb : db.Begin s = (Except.ok tx, s0)) :
    Tx db.traced v (tracedPipes 0 pipes) (s, ([] : List (Call H V)))
      = Tx.forPipes db.traced tx v (tracedPipes 0 pipes) none (s0, [Call.begin]) := by
  simp [Tx, SqlDB.traced, hb]

/-- Recording the calls does not change what `Tx` does: the traced loop returns
the error and the outside state of the plain loop. -/
theorem forPipes_traced_erase (db : SqlDB σ H E) (tx : H) (v : V) :
    ∀ (ps : List (TxPipe σ H V E)) (i : Nat) (err : Option E) (s : σ) (log : List (Call H V)),
      ((Tx.forPipes db.traced tx v (tracedPipes i ps) err (s, log)).1,
        (Tx.forPipes db.traced tx v (tracedPipes i ps) err (s, log)).2.1)
        = Tx.forPipes db tx v ps err s
  | [], i, err, s, log => by simp [tracedPipes, Tx.forPipes, SqlDB.traced]
  | p :: ps, i, err, s, log => by
    rcases hp : p tx v s with ⟨r, s1⟩
    cases r with
    | some e => simp [tracedPipes, Tx.forPipes, tracedPipe, SqlDB.traced, hp]
    | none =>
      simp only [tracedPipes, Tx.forPipes, tracedPipe, hp]
      exact forPipes_traced_erase db tx v ps (i + 1) none s1 _

/-- Recording the calls does not change what `Tx` does. -/
theorem Tx_traced_erase (db : SqlDB σ H E) (v : V) (pipes : List (TxPipe σ H V E)) (s : σ) :
    ((Tx db.traced v (tracedPipes 0 pipes) (s, ([] : List (Call H V)))).1,
      (Tx db.traced v (tracedPipes 0 pipes) (s, ([] : List (Call H V)))).2.1)
      = Tx db v pipes s := by
  rcases hb : db.Begin s with ⟨r, s0⟩
  cases r with
  | error e => simp [Tx, SqlDB.traced, hb]
  | ok tx =>
    rw [Tx_traced_begin_ok db v pipes s s0 tx hb]
    simp only [Tx, hb]
    exact forPipes_traced_erase db tx v pipes 0 none s0 _

end TxRuns

/-! ### `Tx`: the first failing step -/

section TxClaims
variable {σ H E V S : Type}

/-- The recorded run when `Begin` fails. -/
theorem Tx_run_begin_error (db : SqlDB σ H E) (v : V) (pipes : List (TxPipe σ H V E))
    (s s0 : σ) (e : E) (hb : db.Begin s = (Except.error e, s0)) :
    Tx.run db v pipes s = (some e, s0, [Call.begin]) := by
  simp [Tx.run, Tx, SqlDB.traced, hb]

/-- The recorded run when `Begin` succeeds and every step returns `nil`. -/
theorem Tx_run_ok (db : SqlDB σ H E) (v : V) (pipes : List (TxPipe σ H V E))
    (s s0 s1 : σ) (tx : H) (hb : db.Begin s = (Except.ok tx, s0))
    (hall : allNil tx v pipes s0 = some s1) :
    Tx.run db v pipes s
      = (none, (db.Commit tx s1).2,
          [Call.begin] ++ pipeLog tx v 0 pipes.length ++ [Call.commit tx]) := by
  unfold Tx.run
  rw [Tx_traced_begin_ok db v pipes s s0 tx hb]
  exact forPipes_traced_ok db tx v pipes 0 s0 s1 [Call.begin] hall

/-- The recorded run when `Begin` succeeds and the step after `pre` is the first
to return a non-nil error. -/
theorem Tx_run_fail (db : SqlDB σ H E) (v : V) (pre post : List (TxPipe σ H V E))
    (sk : TxPipe σ H V E) (s s0 s1 s2 : σ) (tx : H) (e : E)
    (hb : db.Begin s = (Except.ok tx, s0))
    (hpre : allNil tx v pre s0 = some s1) (hk : sk tx v s1 = (some e, s2)) :
    Tx.run db v (pre ++ sk :: post) s
      = (some e, (db.Rollback tx s2).2,
          [Call.begin] ++ pipeLog tx v 0 (pre.length + 1) ++ [Call.rollback tx]) := by
  unfold Tx.run
  rw [Tx_traced_begin_ok db v _ s s0 tx hb]
  exact forPipes_traced_fail db tx v sk post e s1 s2 hk pre 0 s0 none [Call.begin] hpre

/-- Steps that leave an observation of the outside state unchanged leave it
unchanged when run one after the other. -/
theorem allNil_keeps (obs : σ → S) (tx : H) (v : V) :
    ∀ (ps : List (TxPipe σ H V E)) (s0 s1 : σ),
      (∀ p ∈ ps, ∀ s, obs (p tx v s).2 = obs s) →
      allNil tx v ps s0 = some s1 → obs s1 = obs s0
  | [], s0, s1, _, h => by
    simp only [allNil, Option.some.injEq] at h
    rw [h]
  | p :: ps, s0, s1, hp, h => by
    rcases hq : p tx v s0 with ⟨r, s⟩
    cases r with
    | some e => simp [allNil, hq] at h
    | none =>
      simp only [allNil, hq] at h
      have h1 := allNil_keeps obs tx v ps s s1
        (fun q hq2 => hp q (List.mem_cons_of_mem p hq2)) h
      have h2 := hp p (List.mem_cons_self p ps) s0
      rw [hq] at h2
      rw [h1, h2]

/-- C1. When `Begin` succeeds and the step at position `k` (counted from 1; the
step after the `k - 1` steps `pre`) is the first to return a non-nil error `e`,
`Tx` returns exactly `e`, each of the steps at positions 1 to `k` is called exactly
once, and no step after position `k` is called. -/
theorem Tx_first_error_stops (db : SqlDB σ H E) (v : V) (pre post : List (TxPipe σ H V E))
    (sk : TxPipe σ H V E) (s s0 s1 s2 : σ) (tx : H) (e : E)
    (hb : db.Begin s = (Except.ok tx, s0))
    (hpre : allNil tx v pre s0 = some s1) (hk : sk tx v s1 = (some e, s2)) :
    (Tx db v (pre ++ sk :: post) s).1 = some e ∧
    (Tx.run db v (pre ++ sk :: post) s).1 = some e ∧
    (∀ i, i < pre.length + 1 → invocations i (Tx.run db v (pre ++ sk :: post) s).2.2 = 1) ∧
    (∀ i, pre.length + 1 ≤ i → invocations i (Tx.run db v (pre ++ sk :: post) s).2.2 = 0) := by
  have hrun := Tx_run_fail db v pre post sk s s0 s1 s2 tx e hb hpre hk
  have hplain := Tx_traced_erase (V := V) db v (pre ++ sk :: post) s
  have hret : (Tx.run db v (pre ++ sk :: post) s).1 = some e := by rw [hrun]
  have hcount : ∀ i, invocations i (Tx.run db v (pre ++ sk :: post) s).2.2
      = if 0 ≤ i ∧ i < 0 + (pre.length + 1) then 1 else 0 := by
    intro i
    rw [hrun]
    simp only [invocations_append, invocations_pipeLog]
    simp [invocations]
  refine ⟨?_, hret, ?_, ?_⟩
  · rw [← hplain]
    exact hret
  · intro i hi
    rw [hcount i, if_pos (by omega)]
  · intro i hi
    rw [hcount i, if_neg (by omega)]

theorem Tx_first_error_stops_witness :
    (Tx (memDB none none none) 5 ([insertRow 1] ++ failWith "boom" :: [insertRow 3])
      ⟨[9], []⟩).1 = some "boom" ∧
    (Tx.run (memDB none none none) 5 ([insertRow 1] ++ failWith "boom" :: [insertRow 3])
      ⟨[9], []⟩).1 = some "boom" ∧
    (∀ i, i < [insertRow 1].length + 1 →
      invocations i (Tx.run (memDB none none none) 5
        ([insertRow 1] ++ failWith "boom" :: [insertRow 3]) ⟨[9], []⟩).2.2 = 1) ∧
    (∀ i, [insertRow 1].length + 1 ≤ i →
      invocations i (Tx.run (memDB none none none) 5
        ([insertRow 1] ++ failWith "boom" :: [insertRow 3]) ⟨[9], []⟩).2.2 = 0) :=
  Tx_first_error_stops (memDB none none none) 5 [insertRow 1] [insertRow 3] (failWith "boom")
    ⟨[9], []⟩ ⟨[9], [9]⟩ ⟨[9], [9, 1]⟩ ⟨[9], [9, 1, 5]⟩ 1 "boom" rfl rfl rfl

end TxClaims

/-! ### `Tx`: commit, a failing `Begin`, the order of the calls -/

section TxClaims2
variable {σ H E V S : Type}

/-- C2. When `Begin` succeeds, `Tx` calls `Commit` if and only if every step of
the sequence was called, in the supplied order with none skipped (the step calls
are at positions 0, 1, ..., n - 1 in that order), and each returned `nil`. -/
theorem Tx_commit_iff_all_nil (db : SqlDB σ H E) (v : V) (pipes : List (TxPipe σ H V E))
    (s s0 : σ) (tx : H) (hb : db.Begin s = (Except.ok tx, s0)) :
    0 < commits (Tx.run db v pipes s).2.2 ↔
      ((pipeCalls (Tx.run db v pipes s).2.2).map (fun c => c.1) = List.range pipes.length ∧
        (allNil tx v pipes s0).isSome = true) := by
  rcases allNil_cases tx v pipes s0 with ⟨s1, h1⟩ | ⟨pre, sk, post, s1, e, s2, h1, h2, h3⟩
  · rw [Tx_run_ok db v pipes s s0 s1 tx hb h1]
    simp only [commits_append, commits_pipeLog, pipeCalls_append, pipeCalls_pipeLog, h1]
    simp [commits, pipeCalls, Function.comp_def]
  · subst h1
    rw [Tx_run_fail db v pre post sk s s0 s1 s2 tx e hb h2 h3]
    simp only [commits_append, commits_pipeLog,
      allNil_append_fail tx v sk post e s1 s2 h3 pre s0 h2]
    simp [commits]

theorem Tx_commit_iff_all_nil_witness :
    0 < commits (Tx.run (memDB none none none) 5 [insertRow 1, insertRow 2] ⟨[9], []⟩).2.2 ↔
      ((pipeCalls (Tx.run (memDB none none none) 5 [insertRow 1, insertRow 2]
          ⟨[9], []⟩).2.2).map (fun c => c.1) = List.range [insertRow 1, insertRow 2].length ∧
        (allNil 1 5 [insertRow 1, insertRow 2] ⟨[9], [9]⟩).isSome = true) :=
  Tx_commit_iff_all_nil (memDB none none none) 5 [insertRow 1, insertRow 2] ⟨[9], []⟩
    ⟨[9], [9]⟩ 1 rfl

/-- C4. When `Begin` returns a non-nil error `e`, `Tx` returns exactly `e`, the
only call it makes is `Begin`: it calls no step, and neither `Commit` nor
`Rollback`. -/
theorem Tx_begin_error (db : SqlDB σ H E) (v : V) (pipes : List (TxPipe σ H V E))
    (s s0 : σ) (e : E) (hb : db.Begin s = (Except.error e, s0)) :
    (Tx db v pipes s).1 = some e ∧
    (Tx.run db v pipes s).1 = some e ∧
    (Tx.run db v pipes s).2.2 = [Call.begin] ∧
    (∀ i, invocations i (Tx.run db v pipes s).2.2 = 0) ∧
    commits (Tx.run db v pipes s).2.2 = 0 ∧
    rollbacks (Tx.run db v pipes s).2.2 = 0 := by
  have hplain := Tx_traced_erase (V := V) db v pipes s
  have hrun := Tx_run_begin_error db v pipes s s0 e hb
  unfold Tx.run at hrun
  rw [hrun] at hplain
  unfold Tx.run
  rw [hrun, ← hplain]
  simp [invocations, commits, rollbacks]

theorem Tx_begin_error_witness :
    (Tx (memDB (some "no connection") none none) 5 [insertRow 1, insertRow 2] ⟨[9], []⟩).1
      = some "no connection" ∧
    (Tx.run (memDB (some "no connection") none none) 5 [insertRow 1, insertRow 2]
      ⟨[9], []⟩).1 = some "no connection" ∧
    (Tx.run (memDB (some "no connection") none none) 5 [insertRow 1, insertRow 2]
      ⟨[9], []⟩).2.2 = [Call.begin] ∧
    (∀ i, invocations i (Tx.run (memDB (some "no connection") none none) 5
      [insertRow 1, insertRow 2] ⟨[9], []⟩).2.2 = 0) ∧
    commits (Tx.run (memDB (some "no connection") none none) 5 [insertRow 1, insertRow 2]
      ⟨[9], []⟩).2.2 = 0 ∧
    rollbacks (Tx.run (memDB (some "no connection") none none) 5 [insertRow 1, insertRow 2]
      ⟨[9], []⟩).2.2 = 0 :=
  Tx_begin_error (memDB (some "no connection") none none) 5 [insertRow 1, insertRow 2]
    ⟨[9], []⟩ ⟨[9], []⟩ "no connection" rfl

/-- C5. When `Begin` succeeds with handle `tx`, the step calls `Tx` makes are the
calls of the first `k` steps of `pipes` for some `k`, in the supplied order
(positions 0, 1, ..., k - 1), and every one of them receives the handle `tx` that
`Begin` returned and the target `v` that was passed to `Tx`. -/
theorem Tx_calls_in_order (db : SqlDB σ H E) (v : V) (pipes : List (TxPipe σ H V E))
    (s s0 : σ) (tx : H) (hb : db.Begin s = (Except.ok tx, s0)) :
    ∃ k, k ≤ pipes.length ∧
      pipeCalls (Tx.run db v pipes s).2.2 = (List.range k).map fun j => (j, tx, v) := by
  rcases allNil_cases tx v pipes s0 with ⟨s1, h1⟩ | ⟨pre, sk, post, s1, e, s2, h1, h2, h3⟩
  · refine ⟨pipes.length, le_refl _, ?_⟩
    rw [Tx_run_ok db v pipes s s0 s1 tx hb h1]
    simp only [pipeCalls_append, pipeCalls_pipeLog]
    simp [pipeCalls]
  · subst h1
    refine ⟨pre.length + 1, by simp, ?_⟩
    rw [Tx_run_fail db v pre post sk s s0 s1 s2 tx e hb h2 h3]
    simp only [pipeCalls_append, pipeCalls_pipeLog]
    simp [pipeCalls]

theorem Tx_calls_in_order_witness :
    ∃ k, k ≤ [insertRow 1, failWith "boom", insertRow 3].length ∧
      pipeCalls (Tx.run (memDB none none none) 5 [insertRow 1, failWith "boom", insertRow 3]
        ⟨[9], []⟩).2.2 = (List.range k).map fun j => (j, 1, 5) :=
  Tx_calls_in_order (memDB none none none) 5 [insertRow 1, failWith "boom", insertRow 3]
    ⟨[9], []⟩ ⟨[9], [9]⟩ 1 rfl

/-- The traced step at position `j` of `tracedPipes 0 pipes` is the step at
position `j` of `pipes`, recording position `j`. -/
theorem tracedPipes_at :
    ∀ (pipes : List (TxPipe σ H V E)) (i j : Nat),
      (tracedPipes i pipes)[j]? = (pipes[j]?).map (tracedPipe (i + j))
  | [], i, j => by simp [tracedPipes]
  | p :: ps, i, 0 => by simp [tracedPipes]
  | p :: ps, i, j + 1 => by
    simp only [tracedPipes, List.getElem?_cons_succ]
    rw [tracedPipes_at ps (i + 1) j]
    have h : i + 1 + j = i + (j + 1) := by omega
    rw [h]

end TxClaims2

/-! ### `Tx`: rollback and commit against the committed state -/

section TxClaims3
variable {σ H E V S : Type}

/-- C6. When `Begin` succeeds and the step at position `k` (the step after the
`k - 1` steps `pre`) is the first to return a non-nil error `e`: `Tx` calls
`Rollback` exactly once, as the call right after the call of step `k` and the last
call it makes, never calls `Commit`, and returns `e` whatever `Rollback` returns.
Where `Begin`, the steps run through the transaction and `Rollback` leave the
committed state (what a new transaction reads) unchanged, the committed state
after `Tx` equals the committed state before `Tx` was called. -/
theorem Tx_first_error_rolls_back (db : SqlDB σ H E) (committed : σ → S) (v : V)
    (pre post : List (TxPipe σ H V E)) (sk : TxPipe σ H V E) (s s0 s1 s2 : σ) (tx : H) (e : E)
    (hb : db.Begin s = (Except.ok tx, s0))
    (hpre : allNil tx v pre s0 = some s1) (hk : sk tx v s1 = (some e, s2)) :
    (Tx.run db v (pre ++ sk :: post) s).1 = some e ∧
    rollbacks (Tx.run db v (pre ++ sk :: post) s).2.2 = 1 ∧
    commits (Tx.run db v (pre ++ sk :: post) s).2.2 = 0 ∧
    (Tx.run db v (pre ++ sk :: post) s).2.2
      = [Call.begin] ++ pipeLog tx v 0 pre.length
          ++ [Call.pipe pre.length tx v, Call.rollback tx] ∧
    ((∀ t, committed (db.Begin t).2 = committed t) →
      (∀ p ∈ pre ++ [sk], ∀ t, committed (p tx v t).2 = committed t) →
      (∀ t, committed (db.Rollback tx t).2 = committed t) →
      committed (Tx.run db v (pre ++ sk :: post) s).2.1 = committed s ∧
        committed (Tx db v (pre ++ sk :: post) s).2 = committed s) := by
  have hrun := Tx_run_fail db v pre post sk s s0 s1 s2 tx e hb hpre hk
  have hplain := Tx_traced_erase (V := V) db v (pre ++ sk :: post) s
  have hlog : pipeLog tx v 0 (pre.length + 1)
      = pipeLog tx v 0 pre.length ++ [Call.pipe pre.length tx v] := by
    simp [pipeLog, List.range_succ]
  have hst : (Tx.run db v (pre ++ sk :: post) s).2.1 = (db.Rollback tx s2).2 := by rw [hrun]
  refine ⟨by rw [hrun], ?_, ?_, ?_, ?_⟩
  · rw [hrun]
    simp only [rollbacks_append, rollbacks_pipeLog]
    simp [rollbacks]
  · rw [hrun]
    simp only [commits_append, commits_pipeLog]
    simp [commits]
  · rw [hrun, hlog]
    simp
  · intro hbegin hsteps hroll
    have h0 : committed s0 = committed s := by
      have h := hbegin s
      rw [hb] at h
      exact h
    have h1 : committed s1 = committed s0 :=
      allNil_keeps committed tx v pre s0 s1
        (fun p hp => hsteps p (List.mem_append_left _ hp)) hpre
    have h2 : committed s2 = committed s1 := by
      have h := hsteps sk (List.mem_append_right _ (List.mem_singleton_self sk)) s1
      rw [hk] at h
      exact h
    have hkeep : committed (db.Rollback tx s2).2 = committed s := by
      rw [hroll s2, h2, h1, h0]
    refine ⟨by rw [hst, hkeep], ?_⟩
    rw [← hplain]
    exact (congrArg committed hst).trans hkeep

/-- The steps `insertRow 1` and `failWith "boom"` write through the transaction
only: they leave the committed rows unchanged. -/
theorem memSteps_keep_committed :
    ∀ p ∈ [insertRow 1] ++ [failWith "boom"], ∀ t : Store,
      Store.committed (p 1 5 t).2 = Store.committed t := by
  intro p hp t
  simp only [List.singleton_append, List.mem_cons, List.mem_singleton, List.not_mem_nil,
    or_false] at hp
  rcases hp with h | h <;> subst h <;> rfl

theorem Tx_first_error_rolls_back_witness :
    (Tx.run (memDB none none (some "rollback failed")) 5
      ([insertRow 1] ++ failWith "boom" :: [insertRow 3]) ⟨[9], []⟩).1 = some "boom" ∧
    rollbacks (Tx.run (memDB none none (some "rollback failed")) 5
      ([insertRow 1] ++ failWith "boom" :: [insertRow 3]) ⟨[9], []⟩).2.2 = 1 ∧
    commits (Tx.run (memDB none none (some "rollback failed")) 5
      ([insertRow 1] ++ failWith "boom" :: [insertRow 3]) ⟨[9], []⟩).2.2 = 0 ∧
    (Tx.run (memDB none none (some "rollback failed")) 5
      ([insertRow 1] ++ failWith "boom" :: [insertRow 3]) ⟨[9], []⟩).2.2
      = [Call.begin, Call.pipe 0 1 5, Call.pipe 1 1 5, Call.rollback 1] ∧
    Store.committed (Tx.run (memDB none none (some "rollback failed")) 5
      ([insertRow 1] ++ failWith "boom" :: [insertRow 3]) ⟨[9], []⟩).2.1 = [9] ∧
    Store.committed (Tx (memDB none none (some "rollback failed")) 5
      ([insertRow 1] ++ failWith "boom" :: [insertRow 3]) ⟨[9], []⟩).2 = [9] :=
  have h := Tx_first_error_rolls_back (memDB none none (some "rollback failed"))
    Store.committed 5 [insertRow 1] [insertRow 3] (failWith "boom") ⟨[9], []⟩ ⟨[9], [9]⟩
    ⟨[9], [9, 1]⟩ ⟨[9], [9, 1, 5]⟩ 1 "boom" rfl rfl rfl
  have hc := h.2.2.2.2 (fun _ => rfl) memSteps_keep_committed (fun _ => rfl)
  ⟨h.1, h.2.1, h.2.2.1, h.2.2.2.1, hc.1, hc.2⟩

/-- C3 as stated fails: on a connection whose `Commit` fails and publishes
nothing, with two steps that both return `nil`, `Tx` returns `nil`, yet the
committed rows are still `[9]` and a new transaction reads `[9]`, not the rows
`[9, 1, 2]` the two steps produced. -/
theorem Tx_commit_failure_hidden :
    (memDB none (some "commit failed") none).Begin ⟨[9], []⟩ = (Except.ok 1, ⟨[9], [9]⟩) ∧
    allNil 1 5 [insertRow 1, insertRow 2] ⟨[9], [9]⟩ = some ⟨[9], [9, 1, 2]⟩ ∧
    (Tx (memDB none (some "commit failed") none) 5 [insertRow 1, insertRow 2]
      ⟨[9], []⟩).1 = none ∧
    (Tx (memDB none (some "commit failed") none) 5 [insertRow 1, insertRow 2]
      ⟨[9], []⟩).2.committed = [9] ∧
    ((memDB none (some "commit failed") none).Begin
      (Tx (memDB none (some "commit failed") none) 5 [insertRow 1, insertRow 2]
        ⟨[9], []⟩).2).2.working = [9] ∧
    (Tx (memDB none (some "commit failed") none) 5 [insertRow 1, insertRow 2]
      ⟨[9], []⟩).2.committed ≠ [9, 1, 2] :=
  ⟨rfl, rfl, rfl, rfl, rfl, by decide⟩

/-- C3, amended. When `Begin` succeeds with handle `tx` and every step returns
`nil`, `Tx` returns a nil error whatever `Commit` returns; and when `Commit`
returns `nil`, on a database whose successful `Commit` publishes what the
transaction sees, the committed state afterwards (what a new transaction reads) is
what the transaction saw after the steps `s1..sn` ran in order. -/
theorem Tx_all_nil_commits (db : SqlDB σ H E) (committed : σ → S) (working : H → σ → S)
    (v : V) (pipes : List (TxPipe σ H V E)) (s s0 s1 : σ) (tx : H)
    (hb : db.Begin s = (Except.ok tx, s0)) (hall : allNil tx v pipes s0 = some s1) :
    (Tx db v pipes s).1 = none ∧
    ((db.Commit tx s1).1 = none →
      (∀ t, (db.Commit tx t).1 = none → committed (db.Commit tx t).2 = working tx t) →
      committed (Tx db v pipes s).2 = working tx s1) := by
  have hrun := Tx_run_ok db v pipes s s0 s1 tx hb hall
  have hplain := Tx_traced_erase (V := V) db v pipes s
  unfold Tx.run at hrun
  rw [hrun] at hplain
  rw [← hplain]
  exact ⟨rfl, fun hc hpub => hpub s1 hc⟩

theorem Tx_all_nil_commits_witness :
    (Tx (memDB none none none) 5 [insertRow 1, insertRow 2] ⟨[9], []⟩).1 = none ∧
    Store.committed (Tx (memDB none none none) 5 [insertRow 1, insertRow 2] ⟨[9], []⟩).2
      = [9, 1, 2] :=
  have h := Tx_all_nil_commits (memDB none none none) Store.committed
    (fun _ t => Store.working t) 5 [insertRow 1, insertRow 2] ⟨[9], []⟩ ⟨[9], [9]⟩
    ⟨[9], [9, 1, 2]⟩ 1 rfl rfl
  ⟨h.1, h.2 rfl (fun _ _ => rfl)⟩

end TxClaims3

/-! ### The execution primitives -/

section PrimitiveClaims
variable {σ A R Rows Row E : Type}

/-- What `sqlize` returns: the text and arguments of `ToSql`, whatever the build
error, with `log.Printf` called when `Debug` is set. -/
theorem sqlize_eq (env : Env σ A) (text : String) (args : List A) (e : Option E) (s : σ) :
    sqlize env ⟨(text, args, e)⟩ s = ((text, args), env.logged text args s) := by
  unfold sqlize Env.logged
  split_ifs <;> rfl

/-- Recording the calls of the handle does not disturb `sqlize`. -/
theorem sqlize_traced (env : Env σ A) (text : String) (args : List A) (e : Option E) (s : σ)
    (log : List (DBCall A)) :
    sqlize env.traced ⟨(text, args, e)⟩ (s, log)
      = ((text, args), env.logged text args s, log) := by
  unfold sqlize Env.traced
  by_cases h : env.Debug <;> simp [h, Env.logged]

/-- C8. For every statement with `ToSql() = (text, args, _)` and every handle,
`exec`, `query` and `queryRow` each make exactly one call on the handle (`Exec`,
`Query` and `QueryRow` respectively), with exactly that text and those arguments
in the same order, and return what that call returns, unchanged: the result and
the error for `exec` and `query`, the row for `queryRow`. -/
theorem primitives_delegate (env : Env σ A) (db : DB σ A R Rows Row E) (text : String)
    (args : List A) (e : Option E) (s : σ) :
    (exec env.traced ⟨(text, args, e)⟩ db.traced (s, [])
        = ((db.Exec text args (env.logged text args s)).1,
            (db.Exec text args (env.logged text args s)).2, [DBCall.exec text args]) ∧
      exec env ⟨(text, args, e)⟩ db s = db.Exec text args (env.logged text args s)) ∧
    (query env.traced ⟨(text, args, e)⟩ db.traced (s, [])
        = ((db.Query text args (env.logged text args s)).1,
            (db.Query text args (env.logged text args s)).2, [DBCall.query text args]) ∧
      query env ⟨(text, args, e)⟩ db s = db.Query text args (env.logged text args s)) ∧
    (queryRow env.traced ⟨(text, args, e)⟩ db.traced (s, [])
        = ((db.QueryRow text args (env.logged text args s)).1,
            (db.QueryRow text args (env.logged text args s)).2,
            [DBCall.queryRow text args]) ∧
      queryRow env ⟨(text, args, e)⟩ db s
        = db.QueryRow text args (env.logged text args s)) := by
  refine ⟨⟨?_, ?_⟩, ⟨?_, ?_⟩, ⟨?_, ?_⟩⟩
  · simp only [exec, sqlize_traced]
    simp [DB.traced]
  · simp only [exec, sqlize_eq]
  · simp only [query, sqlize_traced]
    simp [DB.traced]
  · simp only [query, sqlize_eq]
  · simp only [queryRow, sqlize_traced]
    simp [DB.traced]
  · simp only [queryRow, sqlize_eq]

/-- C7 as stated fails: for a statement whose `ToSql` reports a build error
together with the empty text, on a handle that accepts every statement, `exec`
returns a nil error, and it has dispatched the empty text to `db.Exec`. -/
theorem exec_build_error_dispatched :
    brokenStatement.ToSql.2.2 = some "select statements must have at least one result column" ∧
    (exec quietEnv.traced brokenStatement countingDB.traced (0, [])).1.2 = none ∧
    (exec quietEnv.traced brokenStatement countingDB.traced (0, [])).2.2
      = [DBCall.exec "" []] ∧
    (exec quietEnv brokenStatement countingDB 0).1.2 = none :=
  ⟨rfl, rfl, rfl, rfl⟩

/-- C7, amended. For every statement whose `ToSql` reports a non-nil build error
`e` next to a text and arguments, and every handle: `exec` drops the build error,
makes exactly one call `db.Exec` with that text and those arguments, and returns
that call's result and error unchanged; so it returns a non-nil error exactly
when `db.Exec` does. -/
theorem exec_build_error_dropped (env : Env σ A) (db : DB σ A R Rows Row E) (text : String)
    (args : List A) (e : E) (s : σ) :
    (exec env.traced ⟨(text, args, some e)⟩ db.traced (s, [])).2.2 = [DBCall.exec text args] ∧
    (exec env.traced ⟨(text, args, some e)⟩ db.traced (s, [])).1
      = (db.Exec text args (env.logged text args s)).1 ∧
    exec env ⟨(text, args, some e)⟩ db s = db.Exec text args (env.logged text args s) ∧
    ((exec env ⟨(text, args, some e)⟩ db s).1.2 ≠ none ↔
      (db.Exec text args (env.logged text args s)).1.2 ≠ none) := by
  have h1 : exec env.traced ⟨(text, args, some e)⟩ db.traced (s, [])
      = ((db.Exec text args (env.logged text args s)).1,
          (db.Exec text args (env.logged text args s)).2, [DBCall.exec text args]) := by
    simp only [exec, sqlize_traced]
    simp [DB.traced]
  have h2 : exec env ⟨(text, args, some e)⟩ db s
      = db.Exec text args (env.logged text args s) := by
    simp only [exec, sqlize_eq]
  refine ⟨by rw [h1], by rw [h1], h2, by rw [h2]⟩

end PrimitiveClaims

/-! ### The qualifiers -/

section QualifierClaims
variable {Val : Type}


/-- The qualifiers of a list of equality maps, applied one after the other, add the
maps after the existing conditions, in order, and change nothing else. -/
theorem qualify_ByEq :
    ∀ (es : List (sq.Eq Val)) (base : sq.SelectBuilder Val),
      qualify (es.map ByEq) base
        = { base with WhereParts := base.WhereParts ++ es.map sq.Pred.eq }
  | [], base => by simp [qualify]
  | e :: es, base => by
    have ih := qualify_ByEq es (base.Where e)
    simp only [qualify, List.map_cons, List.foldl_cons] at ih ⊢
    rw [show ByEq e base = base.Where e from rfl, ih]
    simp [sq.SelectBuilder.Where]

/-- C9. For every value `v` and every select builder `b`, `ByID(v)(b)` equals
`ByEq(sq.Eq{"id": v})(b)`, which is `b` with the single equality condition
`id = v` added after its WHERE conditions and nothing else changed (for `v = 5`, a
condition on field `id` bound to the argument 5); and evaluating the qualifier any
number of times on the same base gives the same statement each time. -/
theorem ByID_eq_ByEq (v : Val) (b : sq.SelectBuilder Val) :
    ByID v b = ByEq [("id", v)] b ∧
    (ByID v b).WhereParts = b.WhereParts ++ [sq.Pred.eq [("id", v)]] ∧
    (ByID v b).core = b.core ∧
    ∀ n : Nat, (List.replicate n b).map (ByID v) = List.replicate n (ByID v b) := by
  refine ⟨rfl, rfl, rfl, fun n => ?_⟩
  simp

/-- C10. For every base select builder and every list of equality maps
`[e1, .., en]`, applying the qualifiers `[ByEq(e1), .., ByEq(en)]` one after the
other (`qn(..q1(base))`) yields a builder whose where-parts, the conditions squirrel
joins with AND, are the where-parts of the base followed by `e1, .., en` in
exactly that order, with the rest of the statement unchanged. None overrides
another: no part is dropped or merged, every part of the base keeps its position,
and every `ei` is a part of its own at position `i` after the parts of the base,
also when two maps name the same field. -/
theorem qualify_ByEq_appends (es : List (sq.Eq Val)) (base : sq.SelectBuilder Val) :
    (qualify (es.map ByEq) base).WhereParts = base.WhereParts ++ es.map sq.Pred.eq ∧
    (qualify (es.map ByEq) base).core = base.core ∧
    (qualify (es.map ByEq) base).WhereParts.length = base.WhereParts.length + es.length ∧
    (∀ i, i < base.WhereParts.length →
      (qualify (es.map ByEq) base).WhereParts[i]? = base.WhereParts[i]?) ∧
    (∀ i, (qualify (es.map ByEq) base).WhereParts[base.WhereParts.length + i]?
      = (es[i]?).map sq.Pred.eq) := by
  rw [qualify_ByEq]
  refine ⟨rfl, rfl, ?_, fun i hi => ?_, fun i => ?_⟩
  · simp
  · exact List.getElem?_append_left hi
  · show (base.WhereParts ++ es.map sq.Pred.eq)[base.WhereParts.length + i]? = _
    rw [List.getElem?_append_right (Nat.le_add_right _ _), Nat.add_sub_cancel_left,
      List.getElem?_map]

/-- A concrete run: `[ByEq({a: 1}), ByEq({b: 2})]` puts the condition on `a`
before the condition on `b`, both after the condition of the base. -/
theorem qualify_a_before_b :
    (qualify [ByEq [("a", 1)], ByEq [("b", 2)]]
      (⟨"SELECT * FROM t", [sq.Pred.expr "c > ?" [0]]⟩ : sq.SelectBuilder Nat)).WhereParts
      = [sq.Pred.expr "c > ?" [0], sq.Pred.eq [("a", 1)], sq.Pred.eq [("b", 2)]] := by
  rfl

/-- A concrete run on one field: `[ByEq({a: 1}), ByEq({a: 2})]` keeps both
conditions on `a`, in the order given. -/
theorem qualify_same_field_keeps_both :
    (qualify [ByEq [("a", 1)], ByEq [("a", 2)]]
      (⟨"SELECT * FROM t", [sq.Pred.expr "c > 0 OR b = 2" []]⟩ :
        sq.SelectBuilder Nat)).WhereParts
      = [sq.Pred.expr "c > 0 OR b = 2" [], sq.Pred.eq [("a", 1)], sq.Pred.eq [("a", 2)]] := by
  rfl

end QualifierClaims

end Y
